import Mathlib

/-!
Verification of the batch-orchestration core of the smart-summary service.

The Python source is shallowly embedded: pure data (pydantic models in
`app/models/schemas.py`) becomes Lean structures, the mutating methods of
`BatchJobStore` (`app/services/batch_job_store.py`) become functions from a
`Job` to a `Job` taking the wall-clock instant as an explicit argument, the
rate limiter (`app/services/rate_limiter.py`) becomes a step function on its
timestamp queue together with a run relation, the cache
(`app/services/cache_service.py`) becomes an association list with explicit
insertion times, and the dispatcher (`app/api/routes.py`) becomes a fold over
per-record outcomes.  Machine time is modelled by ℚ.  ISO datetime round
trips (`isoformat` / `fromisoformat`) are mutually inverse on the aware
instants the store produces and are modelled as the identity, and the
persisted payloads keep exactly the fields the Python code writes.  Response
serialisation, however, is fallible: pydantic v2's `model_dump()` (default
`mode='python'`) keeps `metadata.timestamp` a raw `datetime`, which stdlib
`json` rejects with a `TypeError`, so `_persist` / `_persist_sqlite` raise
for any job whose results carry a response; persistence is therefore an
`Except`, succeeding exactly on response-free result lists, on which the
field maps are mutually inverse.
-/

namespace SmartSummary

/-! ## Data model (`app/models/schemas.py`) -/

/-- `Insight` of `schemas.py`. -/
structure Insight where
  title : String
  description : String
  category : Option String
  priority : Option String
deriving DecidableEq

/-- `NextAction` of `schemas.py`. -/
structure NextAction where
  action : String
  priority : String
  rationale : Option String
deriving DecidableEq

/-- `Metadata` of `schemas.py`; numbers are modelled in ℚ. -/
structure Metadata where
  confidence_score : ℚ
  model_version : String
  processing_time_ms : Option ℚ
  tokens_used : Option Nat
  timestamp : ℚ
deriving DecidableEq

/-- `AnalyzeResponse` of `schemas.py`. -/
structure AnalyzeResponse where
  summary : String
  insights : List Insight
  next_actions : List NextAction
  metadata : Metadata
deriving DecidableEq

/-- `BatchJobStatus` of `schemas.py`. -/
inductive BatchJobStatus where
  | accepted
  | processing
  | completed
  | failed
deriving DecidableEq

/-- `.value` of the Python `str`-enum. -/
def BatchJobStatus.value : BatchJobStatus → String
  | .accepted => "accepted"
  | .processing => "processing"
  | .completed => "completed"
  | .failed => "failed"

/-- `BatchJobStatus(s)`: the enum constructor, `none` on `ValueError`. -/
def BatchJobStatus.ofValue (s : String) : Option BatchJobStatus :=
  if s = "accepted" then some .accepted
  else if s = "processing" then some .processing
  else if s = "completed" then some .completed
  else if s = "failed" then some .failed
  else none

/-- `BatchRecordResult` of `schemas.py`. -/
structure BatchRecordResult where
  index : Nat
  success : Bool
  response : Option AnalyzeResponse
  error : Option String
deriving DecidableEq

/-! ## Job store state (`app/services/batch_job_store.py`)

The per-job dict held in `BatchJobStore._jobs`.  The store keys jobs by id;
every mutating method looks one job up and rewrites it, so the embedding works
on a single job and threads `datetime.now(timezone.utc)` as a ℚ argument. -/

/-- The in-memory job dict created by `BatchJobStore`. -/
structure Job where
  status : BatchJobStatus
  total_records : Nat
  completed_count : Nat
  failed_count : Nat
  total_tokens_used : Nat
  results : List BatchRecordResult
  created_at : ℚ
  updated_at : ℚ
  failure_message : Option String
deriving DecidableEq

/-- `BatchJobStore.create_job`: the fresh job dict it installs. -/
def create_job (total_records : Nat) (now : ℚ) : Job :=
  { status := .accepted
    total_records := total_records
    completed_count := 0
    failed_count := 0
    total_tokens_used := 0
    results := []
    created_at := now
    updated_at := now
    failure_message := none }

/-- `BatchJobStore.set_processing` on a present job. -/
def set_processing (j : Job) (now : ℚ) : Job :=
  { j with status := .processing, updated_at := now }

/-- `BatchJobStore.append_result` on a present job.  Tokens are added only on
success and only when `tokens_used` is not `None`. -/
def append_result (j : Job) (index : Nat) (success : Bool)
    (response : Option AnalyzeResponse) (error : Option String)
    (tokens_used : Option Nat) (now : ℚ) : Job :=
  if success then
    { j with
      results := j.results ++ [⟨index, success, response, error⟩]
      completed_count := j.completed_count + 1
      total_tokens_used := j.total_tokens_used + tokens_used.getD 0
      updated_at := now }
  else
    { j with
      results := j.results ++ [⟨index, success, response, error⟩]
      failed_count := j.failed_count + 1
      updated_at := now }

/-- `BatchJobStore.set_job_completed` on a present job. -/
def set_job_completed (j : Job) (now : ℚ) : Job :=
  { j with status := .completed, updated_at := now }

/-- `BatchJobStore.set_job_failed` on a present job.  `if message:` stores the
message only when it is neither `None` nor the empty string. -/
def set_job_failed (j : Job) (message : Option String) (now : ℚ) : Job :=
  let j' := { j with status := .failed, updated_at := now }
  match message with
  | some m => if m = "" then j' else { j' with failure_message := some m }
  | none => j'

/-- One mutating call on a job already present in the store. -/
inductive StoreOp where
  | setProcessing (now : ℚ)
  | appendResult (index : Nat) (success : Bool) (response : Option AnalyzeResponse)
      (error : Option String) (tokens_used : Option Nat) (now : ℚ)
  | setCompleted (now : ℚ)
  | setFailed (message : Option String) (now : ℚ)

/-- Dispatch one `StoreOp` to the corresponding store method. -/
def applyOp (j : Job) : StoreOp → Job
  | .setProcessing now => set_processing j now
  | .appendResult index success response error tokens now =>
      append_result j index success response error tokens now
  | .setCompleted now => set_job_completed j now
  | .setFailed message now => set_job_failed j message now

/-- Run a sequence of store operations on a job. -/
def applyOps (j : Job) (ops : List StoreOp) : Job :=
  ops.foldl applyOp j

/-- Number of `append_result` calls in a sequence of operations. -/
def countAppends (ops : List StoreOp) : Nat :=
  ops.countP fun op =>
    match op with
    | .appendResult _ _ _ _ _ _ => true
    | _ => false

/-! ## A stable sort (model of Python `sorted` / SQL `ORDER BY`)

Python's `sorted` is a stable sort; so is insertion sort from the right. -/

/-- Insert `x` into `l` before the first element `y` with `le x y`. -/
def insertLe (le : α → α → Bool) (x : α) : List α → List α
  | [] => [x]
  | y :: ys => if le x y then x :: y :: ys else y :: insertLe le x ys

/-- Stable insertion sort, the model of Python's `sorted`. -/
def sortLe (le : α → α → Bool) (l : List α) : List α :=
  l.foldr (insertLe le) []

/-! ## Rounding (Python built-in `round`)

Python's `round(x, n)` rounds half to even at `n` decimal places. -/

/-- Round to the nearest integer, ties to the even integer. -/
def roundHalfEven (x : ℚ) : ℤ :=
  let f := ⌊x⌋
  if x - f < 1/2 then f
  else if 1/2 < x - f then f + 1
  else if f % 2 = 0 then f else f + 1

/-- `round(x, n)` of Python. -/
def pyRound (x : ℚ) (n : Nat) : ℚ :=
  (roundHalfEven (x * 10 ^ n) : ℚ) / 10 ^ n

/-! ## Status view (`BatchJobStore.get_status_response`) -/

/-- The dict built by `get_status_response` (a `BatchStatusResponse` minus the
`job_id`, which is just the lookup key passed through). -/
structure StatusView where
  status : BatchJobStatus
  total_records : Nat
  completed_count : Nat
  failed_count : Nat
  progress_percent : ℚ
  total_tokens_used : Nat
  estimated_cost : Option ℚ
  results : Option (List BatchRecordResult)
  created_at : ℚ
  updated_at : ℚ
deriving DecidableEq

/-- `BatchJobStore.get_status_response` on a present job; `c_in` / `c_out` are
`settings.batch_cost_per_1k_input_tokens` / `..._output_tokens`. -/
def get_status_response (c_in c_out : Option ℚ) (j : Job) : StatusView :=
  let total := j.total_records
  let completed := j.completed_count
  let failed := j.failed_count
  let done := completed + failed
  let progress : ℚ := if total ≠ 0 then (done : ℚ) / (total : ℚ) * 100 else 0
  let total_tokens := j.total_tokens_used
  let estimated_cost : Option ℚ :=
    if (c_in.isSome ∨ c_out.isSome) ∧ total_tokens ≠ 0 then
      some (pyRound ((total_tokens : ℚ) / 2 / 1000 * c_in.getD 0
        + (total_tokens : ℚ) / 2 / 1000 * c_out.getD 0) 6)
    else none
  { status := j.status
    total_records := total
    completed_count := completed
    failed_count := failed
    progress_percent := pyRound progress 2
    total_tokens_used := total_tokens
    estimated_cost := estimated_cost
    results := if j.results ≠ [] then some j.results else none
    created_at := j.created_at
    updated_at := j.updated_at }

/-- One row of `BatchJobStore.list_jobs` for the memory backend (the file and
sqlite branches build rows from the persisted payloads, which carry the same
fields; none of the branches reads `failure_message`). -/
structure JobListRow where
  status : String
  total_records : Nat
  completed_count : Nat
  failed_count : Nat
  total_tokens_used : Nat
  created_at : ℚ
  updated_at : ℚ
deriving DecidableEq

/-- The row `list_jobs` builds for one in-memory job. -/
def list_jobs_row (j : Job) : JobListRow :=
  { status := j.status.value
    total_records := j.total_records
    completed_count := j.completed_count
    failed_count := j.failed_count
    total_tokens_used := j.total_tokens_used
    created_at := j.created_at
    updated_at := j.updated_at }

/-! ## Persistence (`_persist`, `_load_from_file`, `_persist_sqlite`,
`_load_from_sqlite`)

The payload structures list exactly the keys / columns the Python code
persists: `failure_message` is in neither.  `_serialize_result` embeds
`r.response.model_dump() if r.response else None`, and pydantic v2's
`model_dump()` (default `mode='python'`) keeps `metadata.timestamp` a raw
`datetime`.  Stdlib `json` cannot serialise a `datetime`: `json.dump` of the
file payload and `json.dumps(r.response.model_dump())` in the sqlite loop
raise `TypeError("Object of type datetime is not JSON serializable")` as soon
as any result carries a response (every response has a timestamp).  The
sqlite transaction is never committed in that case and the connection is
closed in the `finally`, rolling back, so persistence is all-or-nothing for
both backends and is modelled as an `Except`.  On the response-free payloads
that do serialise, field serialisation and parsing are mutually inverse and
are modelled by the values themselves. -/

/-- The message of the `TypeError` stdlib `json` raises on a raw
`datetime`. -/
def datetimeTypeError : String :=
  "Object of type datetime is not JSON serializable"


/-- `_serialize_result` / one JSON entry of the file payload's `results`. -/
structure SerializedResult where
  index : Nat
  success : Bool
  response : Option AnalyzeResponse
  error : Option String
deriving DecidableEq

/-- `_serialize_result`. -/
def serialize_result (r : BatchRecordResult) : SerializedResult :=
  ⟨r.index, r.success, r.response, r.error⟩

/-- `_deserialize_result`. -/
def deserialize_result (d : SerializedResult) : BatchRecordResult :=
  ⟨d.index, d.success, d.response, d.error⟩

/-- The JSON document `_persist` writes for the file backend. -/
structure FilePayload where
  status : String
  total_records : Nat
  completed_count : Nat
  failed_count : Nat
  total_tokens_used : Nat
  results : List SerializedResult
  created_at : ℚ
  updated_at : ℚ
deriving DecidableEq

/-- `_persist` (file backend): build the payload dict and `json.dump` it.
The dump raises the `TypeError` exactly when some result embeds a
`model_dump()` — i.e. carries a response — since that dict holds the raw
`datetime` timestamp; nothing is written then. -/
def persist_file (j : Job) : Except String FilePayload :=
  if j.results.all fun r => r.response.isNone then
    .ok { status := j.status.value
          total_records := j.total_records
          completed_count := j.completed_count
          failed_count := j.failed_count
          total_tokens_used := j.total_tokens_used
          results := j.results.map serialize_result
          created_at := j.created_at
          updated_at := j.updated_at }
  else .error datetimeTypeError

/-- `_load_from_file`: rebuild the job dict from the payload (unknown status
strings fall back to `COMPLETED`; the loaded dict has no `failure_message`). -/
def load_from_file (p : FilePayload) : Job :=
  { status := (BatchJobStatus.ofValue p.status).getD .completed
    total_records := p.total_records
    completed_count := p.completed_count
    failed_count := p.failed_count
    total_tokens_used := p.total_tokens_used
    results := p.results.map deserialize_result
    created_at := p.created_at
    updated_at := p.updated_at
    failure_message := none }

/-- One `batch_jobs` row (`_persist_sqlite`). -/
structure SqliteJobRow where
  status : String
  total_records : Nat
  completed_count : Nat
  failed_count : Nat
  total_tokens_used : Nat
  created_at : ℚ
  updated_at : ℚ
deriving DecidableEq

/-- One `batch_results` row; `success` is stored as the integer 0/1. -/
structure SqliteResultRow where
  record_index : Nat
  success : Bool
  response_json : Option AnalyzeResponse
  error : Option String
deriving DecidableEq

/-- `_persist_sqlite`: upsert the job row and reinsert the result rows in
the order of the in-memory `results` list.  `json.dumps(r.response.
model_dump())` raises the `TypeError` for any row whose record carries a
response; the transaction is then never committed (the connection closes in
the `finally` and rolls back), so the write is all-or-nothing. -/
def persist_sqlite (j : Job) : Except String (SqliteJobRow × List SqliteResultRow) :=
  if j.results.all fun r => r.response.isNone then
    .ok ({ status := j.status.value
           total_records := j.total_records
           completed_count := j.completed_count
           failed_count := j.failed_count
           total_tokens_used := j.total_tokens_used
           created_at := j.created_at
           updated_at := j.updated_at },
      j.results.map fun r => ⟨r.index, r.success, r.response, r.error⟩)
  else .error datetimeTypeError

/-- `_load_from_sqlite`: the result rows come back `ORDER BY record_index`,
and a row's response is kept only when `success and r["response_json"]`. -/
def load_from_sqlite (row : SqliteJobRow) (rs : List SqliteResultRow) : Job :=
  { status := (BatchJobStatus.ofValue row.status).getD .completed
    total_records := row.total_records
    completed_count := row.completed_count
    failed_count := row.failed_count
    total_tokens_used := row.total_tokens_used
    results := (sortLe (fun a b => a.record_index ≤ b.record_index) rs).map
      fun r => ⟨r.record_index, r.success,
        if r.success then r.response_json else none, r.error⟩
    created_at := row.created_at
    updated_at := row.updated_at
    failure_message := none }

/-- The transformation the sqlite round trip applies to the results list:
reorder by record index and drop responses of unsuccessful records. -/
def sqliteResultsView (rs : List BatchRecordResult) : List BatchRecordResult :=
  (sortLe (fun a b => a.index ≤ b.index) rs).map
    fun r => ⟨r.index, r.success, if r.success then r.response else none, r.error⟩

/-! ## Rate limiter (`app/services/rate_limiter.py`)

`RateLimiter.acquire` loops: under the lock it takes a monotonic `now`, drops
queue timestamps strictly older than `now - 60`, and if fewer than `R` remain
it appends `now` and returns; otherwise it sleeps past `front + 60` and
retries.  One loop body is `acquireStep`; a call that returns at instant `g`
is a step `acquireStep R q g = some q'`.  A run of successive successful
acquires with the monotonic clock is the inductive relation `Run`. -/

/-- The prune loop of `acquire`: drop timestamps `t < now - 60`. -/
def prune (q : List ℚ) (now : ℚ) : List ℚ :=
  q.dropWhile fun t => t < now - 60

/-- One pass of the `acquire` loop body at instant `now`: grant (returning the
new queue) iff fewer than `R` timestamps survive pruning. -/
def acquireStep (R : Nat) (q : List ℚ) (now : ℚ) : Option (List ℚ) :=
  let pruned := prune q now
  if pruned.length < R then some (pruned ++ [now]) else none

/-- `Run R q t gs`: starting from queue `q` with the monotonic clock at `t`,
successive `acquire` calls return successfully at the instants `gs`. -/
inductive Run (R : Nat) : List ℚ → ℚ → List ℚ → Prop where
  | nil (q : List ℚ) (t : ℚ) : Run R q t []
  | cons {q q' : List ℚ} {t g : ℚ} {gs : List ℚ} :
      t ≤ g → acquireStep R q g = some q' → Run R q' g gs → Run R q t (g :: gs)

/-! ## Result cache (`app/services/cache_service.py`)

`CacheService._generate_key` canonicalises the request —
`json.dumps({"structured_data": structured_data or {}, "notes": sorted(notes)},
sort_keys=True)` — and hashes the canonical string with SHA-256.  `json.dumps`
with `sort_keys=True` serialises every object with its keys sorted at every
nesting depth and is injective on JSON values up to that key sorting, and
SHA-256 maps equal strings to equal digests, so the cache key is modelled by
the canonicalised value itself: the key-sorted structured data paired with the
sorted notes.  `TTLCache` (external library `cachetools`) is modelled as a map
whose entries expire `ttl` seconds after insertion and which evicts when more
than `maxsize` entries are live. -/

/-- Python string comparison: lexicographic on code points. -/
def charsLe : List Char → List Char → Bool
  | [], _ => true
  | _ :: _, [] => false
  | a :: as, b :: bs => if a = b then charsLe as bs else decide (a < b)

/-- A JSON value (`structured_data` contents). -/
inductive Json where
  | null
  | bool (b : Bool)
  | num (q : ℚ)
  | str (s : String)
  | arr (elements : List Json)
  | obj (fields : List (String × Json))

/-- Key-sort every object of a JSON value, at every nesting depth — the shape
`json.dumps(..., sort_keys=True)` serialises. -/
def Json.canon : Json → Json
  | .null => .null
  | .bool b => .bool b
  | .num q => .num q
  | .str s => .str s
  | .arr elements => .arr (elements.attach.map fun x => Json.canon x.1)
  | .obj fields =>
      .obj (sortLe (fun a b => charsLe a.1.data b.1.data)
        (fields.attach.map fun x => (x.1.1, Json.canon x.1.2)))
decreasing_by
  · have := List.sizeOf_lt_of_mem x.2
    simp [Json.arr.sizeOf_spec]
    omega
  · have h1 := List.sizeOf_lt_of_mem x.2
    obtain ⟨⟨k, v⟩, hm⟩ := x
    simp at h1 ⊢
    omega

/-- Structural Boolean equality on JSON values (the model of Python `==` on
parsed JSON, used for dict-key comparison inside the cache). -/
def Json.beq : Json → Json → Bool
  | .null, .null => true
  | .bool a, .bool b => a == b
  | .num a, .num b => a == b
  | .str a, .str b => a == b
  | .arr a, .arr b =>
      a.length == b.length &&
        (a.zip b).attach.all fun p => Json.beq p.1.1 p.1.2
  | .obj a, .obj b =>
      a.length == b.length &&
        (a.zip b).attach.all fun p => p.1.1.1 == p.1.2.1 && Json.beq p.1.1.2 p.1.2.2
  | _, _ => false
termination_by x _ => sizeOf x
decreasing_by
  · obtain ⟨⟨x, y⟩, hm⟩ := p
    have h2 := List.sizeOf_lt_of_mem (List.of_mem_zip hm).1
    simp at h2 ⊢
    omega
  · obtain ⟨⟨⟨k1, v1⟩, ⟨k2, v2⟩⟩, hm⟩ := p
    have h2 := List.sizeOf_lt_of_mem (List.of_mem_zip hm).1
    simp at h2 ⊢
    omega

/-- The cache key of `_generate_key`: canonicalised structured data (`None`
and the empty dict both canonicalise to the empty object, matching
`structured_data or {}`) together with the sorted notes. -/
def generate_key (structured_data : Option Json) (notes : List String) :
    Json × List String :=
  ((structured_data.getD (.obj [])).canon,
    sortLe (fun a b => charsLe a.data b.data) notes)

/-- The `CacheService` state: the enabled flag, the TTL, and the live entries
of the `TTLCache` as (key, value, insertion instant) triples. -/
structure CacheState where
  enabled : Bool
  ttl : ℚ
  entries : List ((Json × List String) × AnalyzeResponse × ℚ)

/-- Key equality (the SHA-256 hex digests of the canonical strings coincide
exactly when the canonical forms do). -/
def keyEq (a b : Json × List String) : Bool :=
  Json.beq a.1 b.1 && a.2 == b.2

/-- `CacheService.get`: miss when disabled, else look the key up and return
the value if its entry has not yet expired. -/
def CacheState.get (c : CacheState) (structured_data : Option Json)
    (notes : List String) (now : ℚ) : Option AnalyzeResponse :=
  if c.enabled then
    match c.entries.find? fun e => keyEq e.1 (generate_key structured_data notes) with
    | some e => if now - e.2.2 < c.ttl then some e.2.1 else none
    | none => none
  else none

/-- `CacheService.set`: no-op when disabled, else store the value under the
key, replacing any previous entry; at capacity the oldest entry is evicted. -/
def CacheState.set (c : CacheState) (structured_data : Option Json)
    (notes : List String) (value : AnalyzeResponse) (now : ℚ) : CacheState :=
  if c.enabled then
    { c with entries :=
        ((generate_key structured_data notes, value, now) ::
          c.entries.filter fun e => !keyEq e.1 (generate_key structured_data notes)).take 1000 }
  else c

/-! ## Batch dispatcher (`_process_one_record` / `_process_batch` in
`app/api/routes.py`)

A record task is embedded as its normalised notes, the cache answer for it,
and an oracle giving the outcome of each successive LLM attempt (`.error e`
carries `str(e)`).  `_process_one_record` always terminates in exactly one
`append_result`; the pair returned below is that append and the number of LLM
attempts actually made. -/

/-- Python `\s` (and the `str.strip` default set) on ASCII text: space, tab,
newline, carriage return, vertical tab, form feed. -/
def isPyWs (c : Char) : Bool :=
  c == ' ' || c == '\t' || c == '\n' || c == '\r' ||
    c == Char.ofNat 11 || c == Char.ofNat 12

/-- Python `s.strip()`: remove leading and trailing whitespace. -/
def pyStrip (s : String) : String :=
  String.mk (((s.data.dropWhile isPyWs).reverse.dropWhile isPyWs).reverse)

/-- `validate_notes`: a bare string becomes `[v]` when `v.strip()` is truthy
else `[]`; a list keeps exactly the entries with `note and note.strip()`
truthy — the kept entries themselves are NOT trimmed. -/
def validate_notes : String ⊕ List String → List String
  | .inl s => if pyStrip s = "" then [] else [s]
  | .inr l => l.filter fun note => !(note = "") && !(pyStrip note = "")

/-- The `if not request.notes` guard of the `/analyze` handler: HTTP 400 with
this detail on an empty normalised notes list. -/
def analyze_notes_check (notes : List String) : Except (Nat × String) Unit :=
  if notes = [] then .error (400, "At least one note is required") else .ok ()

/-! ## JSON recovery from markdown (`AIService._extract_json_from_markdown`)

The Python method first searches (leftmost, `re.DOTALL`) for
one fenced code block with a lazily captured braced body, then falls back to
the greedy braced-substring search, else raises `ValueError`, which
`AIService.analyze` wraps into an `AIServiceError`.  Text is embedded as
`List Char`; the backtick and brace characters are written by code point. -/

/-- The backtick character. -/
def tickChar : Char := Char.ofNat 96

/-- The opening brace character. -/
def lbrace : Char := Char.ofNat 123

/-- The closing brace character. -/
def rbrace : Char := Char.ofNat 125

/-- The three-backtick fence. -/
def fenceChars : List Char := [tickChar, tickChar, tickChar]

/-- `p` is a prefix of `s`, decidably. -/
def startsWith : List Char → List Char → Bool
  | [], _ => true
  | _ :: _, [] => false
  | p :: ps, c :: cs => p == c && startsWith ps cs

/-- After the captured closing brace the pattern needs whitespace and then the
closing fence (a backtick is not whitespace, so the greedy whitespace run is
forced). -/
def wsThenFence (s : List Char) : Bool :=
  startsWith fenceChars (s.dropWhile isPyWs)

/-- The lazy capture of the body: extend one character at a time, stopping at
the first closing brace that is followed by whitespace and the fence. -/
def lazyCapture (acc : List Char) : List Char → Option (List Char)
  | [] => none
  | c :: rest =>
      if c == rbrace && wsThenFence rest then some (acc ++ [c])
      else lazyCapture (acc ++ [c]) rest

/-- After fence and optional tag: greedy whitespace, an opening brace, then
the lazy capture. -/
def fenceBody (r : List Char) : Option (List Char) :=
  match r.dropWhile isPyWs with
  | c :: rest => if c == lbrace then lazyCapture [c] rest else none
  | [] => none

/-- Try the fenced-block pattern anchored at this position: the fence, then
the optional tag `json` (tried first, as the regex engine does), then the
body. -/
def matchFenceAt (s : List Char) : Option (List Char) :=
  if startsWith fenceChars s then
    let r0 := s.drop 3
    match (if startsWith "json".toList r0 then fenceBody (r0.drop 4) else none) with
    | some cap => some cap
    | none => fenceBody r0
  else none

/-- Leftmost search for the fenced-block pattern. -/
def findFenced : List Char → Option (List Char)
  | [] => none
  | c :: rest =>
      match matchFenceAt (c :: rest) with
      | some cap => some cap
      | none => findFenced rest

/-- The greedy fallback: the substring from the first opening brace
through the last closing brace of the whole text, when nonempty. -/
def bracesFallback (s : List Char) : Option (List Char) :=
  let s1 := s.dropWhile fun c => !(c == lbrace)
  let s2 := (s1.reverse.dropWhile fun c => !(c == rbrace)).reverse
  if 2 ≤ s2.length then some s2 else none

/-- `AIService._extract_json_from_markdown`. -/
def extract_json_from_markdown (s : List Char) : Option (List Char) :=
  match findFenced s with
  | some cap => some cap
  | none => bracesFallback s

/-- The recovery path of `AIService.analyze` on non-JSON response text: the
extracted substring, or the `AIServiceError` raised when the `ValueError`
from the extractor is wrapped. -/
def recover_non_json (s : List Char) : Except String (List Char) :=
  match extract_json_from_markdown s with
  | some t => .ok t
  | none => .error "Failed to analyze data: Could not extract JSON from response"

/-- A concrete analysis response used by witnesses. -/
def respW : AnalyzeResponse :=
  { summary := "s"
    insights := []
    next_actions := []
    metadata :=
      { confidence_score := 0
        model_version := "m"
        processing_time_ms := none
        tokens_used := some 7
        timestamp := 0 } }

/-- A concrete job whose results were appended out of index order (record 1
finished before record 0), used to exhibit the sqlite reordering. -/
def jC6 : Job :=
  { status := .completed
    total_records := 2
    completed_count := 1
    failed_count := 1
    total_tokens_used := 0
    results := [⟨1, true, none, none⟩, ⟨0, false, none, some "boom"⟩]
    created_at := 0
    updated_at := 0
    failure_message := none }

/-- A concrete job with one successful response-carrying record: serialising
it hits the `TypeError` on the response's timestamp. -/
def jC6R : Job :=
  { create_job 1 0 with results := [⟨0, true, some respW, none⟩], completed_count := 1 }

/-!
# Theorems
-/

/-! ## Generic list lemmas -/

theorem zipSelf (l : List α) : l.zip l = l.map fun x => (x, x) := by
  induction l with
  | nil => rfl
  | cons a t ih => simp [List.zip_cons_cons, ih]

theorem sortLe_of_pairwise (le : α → α → Bool) :
    ∀ l : List α, l.Pairwise (fun a b => le a b = true) → sortLe le l = l := by
  intro l h
  induction l with
  | nil => rfl
  | cons a t ih =>
    have ht : sortLe le t = t := ih (List.pairwise_cons.mp h).2
    show insertLe le a (sortLe le t) = a :: t
    rw [ht]
    cases t with
    | nil => rfl
    | cons b bs =>
      have hab : le a b = true := (List.pairwise_cons.mp h).1 b (by simp)
      simp [insertLe, hab]

theorem insertLe_map (le : β → β → Bool) (le' : α → α → Bool) (f : α → β)
    (hc : ∀ a b, le (f a) (f b) = le' a b) (x : α) :
    ∀ l : List α, insertLe le (f x) (l.map f) = (insertLe le' x l).map f := by
  intro l
  induction l with
  | nil => rfl
  | cons y ys ih =>
    simp only [List.map_cons, insertLe, hc]
    by_cases h : le' x y = true
    · simp [h]
    · simp [h, ih]

theorem sortLe_map (le : β → β → Bool) (le' : α → α → Bool) (f : α → β)
    (hc : ∀ a b, le (f a) (f b) = le' a b) :
    ∀ l : List α, sortLe le (l.map f) = (sortLe le' l).map f := by
  intro l
  induction l with
  | nil => rfl
  | cons a t ih =>
    show insertLe le (f a) (sortLe le (t.map f)) = (insertLe le' a (sortLe le' t)).map f
    rw [ih, insertLe_map le le' f hc]

/-! ## Job store helper lemmas -/

theorem BatchJobStatus.ofValue_value (s : BatchJobStatus) :
    BatchJobStatus.ofValue s.value = some s := by
  cases s <;> rfl

theorem deserialize_serialize (r : BatchRecordResult) :
    deserialize_result (serialize_result r) = r := rfl

theorem applyOp_done_count (j : Job) (op : StoreOp) :
    (applyOp j op).completed_count + (applyOp j op).failed_count =
      j.completed_count + j.failed_count + countAppends [op] := by
  cases op with
  | appendResult i s r e tk t =>
      simp only [applyOp, append_result, countAppends, List.countP_cons, List.countP_nil]
      by_cases hs : s = true
      · simp [hs]; omega
      · simp at hs; simp [hs]; omega
  | setProcessing t => simp [applyOp, set_processing, countAppends]
  | setCompleted t => simp [applyOp, set_job_completed, countAppends]
  | setFailed m t =>
      simp only [applyOp, set_job_failed, countAppends, List.countP_cons, List.countP_nil]
      cases m with
      | none => simp
      | some msg => by_cases hm : msg = "" <;> simp [hm]

theorem applyOps_done_count (ops : List StoreOp) :
    ∀ j : Job, (applyOps j ops).completed_count + (applyOps j ops).failed_count =
      j.completed_count + j.failed_count + countAppends ops := by
  induction ops with
  | nil => intro j; simp [applyOps, countAppends]
  | cons op ops ih =>
    intro j
    have h1 : applyOps j (op :: ops) = applyOps (applyOp j op) ops := rfl
    rw [h1, ih (applyOp j op)]
    have h2 := applyOp_done_count j op
    have h3 : countAppends (op :: ops) = countAppends [op] + countAppends ops := by
      simp [countAppends, List.countP_cons]; omega
    omega

/-! ## C1: counter monotonicity and status transitions -/

/-- C1 counterexample: the claim quantifies over every sequence of store
operations, but `set_processing` unconditionally overwrites the status, so a
completed job is returned to `processing`; and `append_result` never checks
`total_records`, so on a job created with `total_records = 0` one append makes
`completed_count + failed_count = 1 > 0`. -/
theorem c1_counterexample :
    (applyOps (create_job 0 0) [.setCompleted 1]).status = .completed ∧
    (applyOps (create_job 0 0) [.setCompleted 1, .setProcessing 2]).status = .processing ∧
    (applyOps (create_job 0 0) [.setCompleted 1, .setProcessing 2,
        .appendResult 0 true none none none 3]).completed_count +
      (applyOps (create_job 0 0) [.setCompleted 1, .setProcessing 2,
        .appendResult 0 true none none none 3]).failed_count = 1 ∧
    (create_job 0 0).total_records = 0 :=
  ⟨rfl, rfl, rfl, rfl⟩

/-- C1 (amended): under every single store operation `completed_count`,
`failed_count` and `total_tokens_used` are non-decreasing; starting from
`create_job`, `completed_count + failed_count` equals the number of
`append_result` operations applied, hence stays at most `total_records`
whenever at most `total_records` appends occur; and the only ways a job's
status can read `processing` after an operation are that the operation was
`set_processing` (which moves even a terminal job there) or that it was an
`append_result` on a job already `processing`. -/
theorem c1_invariants :
    (∀ (j : Job) (op : StoreOp),
      j.completed_count ≤ (applyOp j op).completed_count ∧
      j.failed_count ≤ (applyOp j op).failed_count ∧
      j.total_tokens_used ≤ (applyOp j op).total_tokens_used) ∧
    (∀ (total : Nat) (now : ℚ) (ops : List StoreOp),
      (applyOps (create_job total now) ops).completed_count +
        (applyOps (create_job total now) ops).failed_count = countAppends ops) ∧
    (∀ (total : Nat) (now : ℚ) (ops : List StoreOp), countAppends ops ≤ total →
      (applyOps (create_job total now) ops).completed_count +
        (applyOps (create_job total now) ops).failed_count ≤ total) ∧
    (∀ (j : Job) (op : StoreOp), (applyOp j op).status = .processing →
      (∃ t, op = .setProcessing t) ∨
        (j.status = .processing ∧
          ∃ i s r e tk t, op = .appendResult i s r e tk t)) := by
  refine ⟨?_, ?_, ?_, ?_⟩
  · intro j op
    cases op with
    | appendResult i s r e tk t =>
        by_cases hs : s = true
        · simp [applyOp, append_result, hs]
        · simp at hs; simp [applyOp, append_result, hs]
    | setProcessing t => simp [applyOp, set_processing]
    | setCompleted t => simp [applyOp, set_job_completed]
    | setFailed m t =>
        cases m with
        | none => simp [applyOp, set_job_failed]
        | some msg =>
            by_cases hm : msg = "" <;> simp [applyOp, set_job_failed, hm]
  · intro total now ops
    have h := applyOps_done_count ops (create_job total now)
    have hc : (create_job total now).completed_count = 0 := rfl
    have hf : (create_job total now).failed_count = 0 := rfl
    omega
  · intro total now ops hle
    have h := applyOps_done_count ops (create_job total now)
    have hc : (create_job total now).completed_count = 0 := rfl
    have hf : (create_job total now).failed_count = 0 := rfl
    omega
  · intro j op h
    cases op with
    | appendResult i s r e tk t =>
        right
        constructor
        · by_cases hs : s = true
          · simpa [applyOp, append_result, hs] using h
          · simp at hs; simpa [applyOp, append_result, hs] using h
        · exact ⟨i, s, r, e, tk, t, rfl⟩
    | setProcessing t => exact Or.inl ⟨t, rfl⟩
    | setCompleted t => simp [applyOp, set_job_completed] at h
    | setFailed m t =>
        cases m with
        | none => simp [applyOp, set_job_failed] at h
        | some msg =>
            by_cases hm : msg = "" <;> simp [applyOp, set_job_failed, hm] at h

/-- Witness for `c1_invariants` at concrete inputs. -/
theorem c1_invariants_witness :
    (countAppends [StoreOp.appendResult 0 true none none (some 5) 1] ≤ 2 ∧
      (applyOps (create_job 2 0)
          [StoreOp.appendResult 0 true none none (some 5) 1]).completed_count +
        (applyOps (create_job 2 0)
          [StoreOp.appendResult 0 true none none (some 5) 1]).failed_count ≤ 2) ∧
    ((applyOp (create_job 2 0) (.setProcessing 3)).status = .processing ∧
      ((∃ t, StoreOp.setProcessing 3 = StoreOp.setProcessing t) ∨
        ((create_job 2 0).status = .processing ∧
          ∃ i s r e tk t, StoreOp.setProcessing 3 = .appendResult i s r e tk t))) :=
  ⟨⟨by decide,
    c1_invariants.2.2.1 2 0 [StoreOp.appendResult 0 true none none (some 5) 1] (by decide)⟩,
   ⟨rfl, c1_invariants.2.2.2 (create_job 2 0) (.setProcessing 3) rfl⟩⟩

/-! ## C8: idempotence of `set_job_completed` -/

/-- C8 counterexample: the second `set_job_completed` call happens at a later
instant and overwrites `updated_at`, so the state after the second call
differs from the state after the first. -/
theorem c8_counterexample :
    set_job_completed (set_job_completed (create_job 1 0) 0) 1 ≠
      set_job_completed (create_job 1 0) 0 := by
  intro h
  have h2 := congrArg Job.updated_at h
  simp [set_job_completed, create_job] at h2

/-- C8 (amended): a second `set_job_completed` changes nothing except
`updated_at`, which it sets to the instant of the second call; in particular,
when the two calls carry the same clock reading the state is unchanged. -/
theorem c8_idempotent_mod_updated_at :
    ∀ (j : Job) (t1 t2 : ℚ),
      set_job_completed (set_job_completed j t1) t2 =
        { set_job_completed j t1 with updated_at := t2 } ∧
      (t2 = t1 →
        set_job_completed (set_job_completed j t1) t2 = set_job_completed j t1) := by
  intro j t1 t2
  refine ⟨rfl, ?_⟩
  intro h
  subst h
  rfl

/-- Witness for `c8_idempotent_mod_updated_at` at a concrete job and instant. -/
theorem c8_idempotent_mod_updated_at_witness :
    set_job_completed (set_job_completed (create_job 1 0) 2) 2 =
      set_job_completed (create_job 1 0) 2 :=
  (c8_idempotent_mod_updated_at (create_job 1 0) 2 2).2 rfl

/-! ## C7: estimated cost -/

/-- C7: with both per-1K-token prices configured and a positive token count,
`estimated_cost` is `round((tokens/2000)·p_in + (tokens/2000)·p_out, 6)` (the
code computes `(tokens/2)/1000` for each term, which is the same rational);
with neither price configured it is `None`. -/
theorem c7_estimated_cost :
    (∀ (p_in p_out : ℚ) (j : Job), 0 < j.total_tokens_used →
      (get_status_response (some p_in) (some p_out) j).estimated_cost =
        some (pyRound ((j.total_tokens_used : ℚ) / 2000 * p_in +
          (j.total_tokens_used : ℚ) / 2000 * p_out) 6)) ∧
    (∀ j : Job, (get_status_response none none j).estimated_cost = none) := by
  constructor
  · intro p_in p_out j h
    have hne : j.total_tokens_used ≠ 0 := Nat.pos_iff_ne_zero.mp h
    simp only [get_status_response, Option.isSome_some, Option.getD_some, hne]
    rw [if_pos (by simp [hne])]
    congr 2
    rw [div_div]
    norm_num
  · intro j
    simp [get_status_response]

/-- Witness for `c7_estimated_cost` at a concrete job with 1000 tokens. -/
theorem c7_estimated_cost_witness :
    (get_status_response (some 3) (some 15)
        { create_job 1 0 with total_tokens_used := 1000 }).estimated_cost =
      some (pyRound ((1000 : ℚ) / 2000 * 3 + (1000 : ℚ) / 2000 * 15) 6) :=
  c7_estimated_cost.1 3 15 { create_job 1 0 with total_tokens_used := 1000 }
    (by decide)

/-! ## C10: the failure message never leaves the in-memory map -/

/-- C10: `set_job_failed` records the message only in the in-memory dict;
neither payload type carries such a field, so a job hydrated from any file
payload or any sqlite rows has no failure message, and neither the status
view nor the `list_jobs` row depends on it. -/
theorem c10_failure_message_in_memory_only :
    ∀ (j : Job) (m : String) (t : ℚ), m ≠ "" →
      (set_job_failed j (some m) t).failure_message = some m ∧
      (∀ p : FilePayload, (load_from_file p).failure_message = none) ∧
      (∀ (row : SqliteJobRow) (rs : List SqliteResultRow),
        (load_from_sqlite row rs).failure_message = none) ∧
      (∀ c_in c_out : Option ℚ,
        get_status_response c_in c_out { j with failure_message := some m } =
          get_status_response c_in c_out { j with failure_message := none }) ∧
      list_jobs_row { j with failure_message := some m } =
        list_jobs_row { j with failure_message := none } := by
  intro j m t hm
  refine ⟨?_, fun p => rfl, fun row rs => rfl, fun _ _ => rfl, rfl⟩
  simp [set_job_failed, hm]

/-- Witness for `c10_failure_message_in_memory_only` at a concrete job. -/
theorem c10_failure_message_in_memory_only_witness :
    (set_job_failed (create_job 1 0) (some "boom") 1).failure_message = some "boom" :=
  (c10_failure_message_in_memory_only (create_job 1 0) "boom" 1 (by decide)).1

/-! ## C6: persistence round trips -/

theorem persist_file_ok_iff (j : Job) :
    (¬ ∃ r ∈ j.results, r.response ≠ none) ↔
      (j.results.all fun r => r.response.isNone) = true := by
  rw [List.all_eq_true]
  constructor
  · intro hno r hr
    by_contra hne
    exact hno ⟨r, hr, by simpa [Option.isNone_iff_eq_none] using hne⟩
  · intro hall ⟨r, hr, hne⟩
    exact hne (by simpa [Option.isNone_iff_eq_none] using hall r hr)

theorem persist_sqlite_ok_no_response (j : Job)
    (pr : SqliteJobRow × List SqliteResultRow)
    (h : persist_sqlite j = .ok pr) : ∀ r ∈ j.results, r.response = none := by
  unfold persist_sqlite at h
  by_cases hg : (j.results.all fun r => r.response.isNone) = true
  · intro r hr
    simpa [Option.isNone_iff_eq_none] using List.all_eq_true.mp hg r hr
  · rw [if_neg hg] at h
    cases h

theorem load_persist_file (j : Job) (p : FilePayload)
    (h : persist_file j = .ok p) :
    load_from_file p = { j with failure_message := none } := by
  unfold persist_file at h
  by_cases hg : (j.results.all fun r => r.response.isNone) = true
  · rw [if_pos hg] at h
    have hp := Except.ok.inj h
    subst hp
    simp only [load_from_file, BatchJobStatus.ofValue_value,
      Option.getD_some, List.map_map]
    rw [show deserialize_result ∘ serialize_result = id from rfl, List.map_id]
  · rw [if_neg hg] at h
    cases h

theorem load_persist_sqlite (j : Job) (pr : SqliteJobRow × List SqliteResultRow)
    (h : persist_sqlite j = .ok pr) :
    load_from_sqlite pr.1 pr.2 =
      { j with results := sqliteResultsView j.results, failure_message := none } := by
  unfold persist_sqlite at h
  by_cases hg : (j.results.all fun r => r.response.isNone) = true
  · rw [if_pos hg] at h
    have hp := Except.ok.inj h
    subst hp
    have hs := sortLe_map
      (fun a b : SqliteResultRow => a.record_index ≤ b.record_index)
      (fun a b : BatchRecordResult => a.index ≤ b.index)
      (fun r : BatchRecordResult => (⟨r.index, r.success, r.response, r.error⟩ : SqliteResultRow))
      (fun a b => rfl) j.results
    simp only [load_from_sqlite, sqliteResultsView,
      BatchJobStatus.ofValue_value, Option.getD_some, hs, List.map_map]
    rfl
  · rw [if_neg hg] at h
    cases h

/-- C6 counterexample, in two halves.  First: serialising a job whose single
record carries a response raises the `datetime` `TypeError` (pydantic's
`model_dump` keeps `metadata.timestamp` a raw `datetime`), so the round trip
asserted for every job never even starts.  Second: for a response-free job
whose records finished out of index order the sqlite write succeeds but the
hydrated results come back ordered by `record_index`, so the status view of
the round-tripped job differs from the original. -/
theorem c6_counterexample :
    persist_file jC6R = .error datetimeTypeError ∧
    persist_sqlite jC6 =
      .ok (⟨"completed", 2, 1, 1, 0, 0, 0⟩,
        [⟨1, true, none, none⟩, ⟨0, false, none, some "boom"⟩]) ∧
    get_status_response none none
        (load_from_sqlite ⟨"completed", 2, 1, 1, 0, 0, 0⟩
          [⟨1, true, none, none⟩, ⟨0, false, none, some "boom"⟩]) ≠
      get_status_response none none jC6 := by
  refine ⟨rfl, rfl, ?_⟩
  intro h
  have h2 := congrArg StatusView.results h
  revert h2
  decide

/-- C6 (amended): persisting raises the `datetime` `TypeError` exactly when
some result carries a response, for both backends, so the round trip exists
only for jobs none of whose results carries a response.  For those jobs the
file-backend round trip yields an identical status view, and the
sqlite-backend round trip yields the same job except that the results come
back stably sorted by record index — hence an identical status view exactly
when the results were already in index order. -/
theorem c6_round_trip :
    (∀ j : Job,
      ((∃ r ∈ j.results, r.response ≠ none) ↔
        persist_file j = .error datetimeTypeError) ∧
      ((∃ r ∈ j.results, r.response ≠ none) ↔
        persist_sqlite j = .error datetimeTypeError)) ∧
    (∀ (c_in c_out : Option ℚ) (j : Job) (p : FilePayload),
      persist_file j = .ok p →
      get_status_response c_in c_out (load_from_file p) =
        get_status_response c_in c_out j) ∧
    (∀ (j : Job) (pr : SqliteJobRow × List SqliteResultRow),
      persist_sqlite j = .ok pr →
      load_from_sqlite pr.1 pr.2 =
        { j with results := sqliteResultsView j.results, failure_message := none }) ∧
    (∀ (c_in c_out : Option ℚ) (j : Job) (pr : SqliteJobRow × List SqliteResultRow),
      persist_sqlite j = .ok pr →
      j.results.Pairwise (fun a b => a.index ≤ b.index) →
      get_status_response c_in c_out (load_from_sqlite pr.1 pr.2) =
        get_status_response c_in c_out j) := by
  refine ⟨?_, ?_, load_persist_sqlite, ?_⟩
  · intro j
    by_cases hg : (j.results.all fun r => r.response.isNone) = true
    · have hno : ¬ ∃ r ∈ j.results, r.response ≠ none := (persist_file_ok_iff j).mpr hg
      constructor
      · constructor
        · intro hex
          exact absurd hex hno
        · intro herr
          unfold persist_file at herr
          rw [if_pos hg] at herr
          cases herr
      · constructor
        · intro hex
          exact absurd hex hno
        · intro herr
          unfold persist_sqlite at herr
          rw [if_pos hg] at herr
          cases herr
    · have hex : ∃ r ∈ j.results, r.response ≠ none := by
        by_contra hno
        exact hg ((persist_file_ok_iff j).mp hno)
      constructor
      · exact ⟨fun _ => by unfold persist_file; rw [if_neg hg], fun _ => hex⟩
      · exact ⟨fun _ => by unfold persist_sqlite; rw [if_neg hg], fun _ => hex⟩
  · intro c_in c_out j p h
    rw [load_persist_file j p h]
    rfl
  · intro c_in c_out j pr h hp
    rw [load_persist_sqlite j pr h]
    have hnores := persist_sqlite_ok_no_response j pr h
    have hsort : sortLe (fun a b : BatchRecordResult => a.index ≤ b.index) j.results
        = j.results :=
      sortLe_of_pairwise _ _ (hp.imp fun h => by simpa using h)
    have hres : sqliteResultsView j.results = j.results := by
      rw [sqliteResultsView, hsort]
      have hmap : ∀ r ∈ j.results,
          (⟨r.index, r.success, if r.success then r.response else none, r.error⟩ :
            BatchRecordResult) = r := by
        intro r hr
        have hif : (if r.success then r.response else none) = r.response := by
          cases hsucc : r.success with
          | true => rfl
          | false => rw [hnores r hr]; simp
        rw [hif]
      rw [List.map_congr_left hmap, List.map_id']
    rw [hres]
    rfl

/-- Witness for `c6_round_trip` at a concrete response-free job whose single
result is in index order: the sqlite write succeeds and the round trip
preserves the status view. -/
theorem c6_round_trip_witness :
    get_status_response none none
        (load_from_sqlite (⟨"accepted", 1, 1, 0, 0, 0, 0⟩ : SqliteJobRow)
          [⟨0, true, none, none⟩]) =
      get_status_response none none
        { create_job 1 0 with results := [⟨0, true, none, none⟩], completed_count := 1 } :=
  c6_round_trip.2.2.2 none none
    { create_job 1 0 with results := [⟨0, true, none, none⟩], completed_count := 1 }
    (⟨"accepted", 1, 1, 0, 0, 0, 0⟩, [⟨0, true, none, none⟩])
    rfl (by simp)

/-! ## C2: rate limiter -/

theorem run_le (R : Nat) {q : List ℚ} {t : ℚ} {gs : List ℚ}
    (h : Run R q t gs) : ∀ g ∈ gs, t ≤ g := by
  induction h with
  | nil => intro g hg; cases hg
  | cons htg _ _ ih =>
    intro x hx
    rcases List.mem_cons.mp hx with h1 | h2
    · exact h1 ▸ htg
    · exact le_trans htg (ih x h2)

theorem run_sorted (R : Nat) {q : List ℚ} {t : ℚ} {gs : List ℚ}
    (h : Run R q t gs) : gs.Pairwise (· ≤ ·) := by
  induction h with
  | nil => exact List.Pairwise.nil
  | cons _ _ hrun ih => exact List.pairwise_cons.mpr ⟨run_le _ hrun, ih⟩

/-- Every grant of a run sees at most `R - 1` earlier timestamps in the
60-second window ending at it: the queue before the grant contains every
earlier timestamp not yet pruned, pruned timestamps lie strictly below
`now - 60` for some earlier `now`, and the granting step requires fewer than
`R` surviving timestamps. -/
theorem run_window_count (R : Nat) :
    ∀ (l1 : List ℚ) (q : List ℚ) (t : ℚ) (g : ℚ) (rest gs : List ℚ),
      Run R q t gs → gs = l1 ++ g :: rest →
      ((q ++ l1 ++ [g]).countP fun x => g - 60 ≤ x) ≤ R := by
  intro l1
  induction l1 with
  | nil =>
    intro q t g rest gs hrun hgs
    subst hgs
    cases hrun with
    | @cons _ q' _ _ _ htg hstep hrest =>
      have hlt : (prune q g).length < R := by
        by_contra hge
        simp only [acquireStep] at hstep
        rw [if_neg hge] at hstep
        exact Option.noConfusion hstep
      have hq : (q.countP fun x => g - 60 ≤ x) ≤ (prune q g).length := by
        conv_lhs => rw [← List.takeWhile_append_dropWhile
          (p := fun x : ℚ => decide (x < g - 60)) (l := q)]
        rw [List.countP_append]
        have hz : ((q.takeWhile fun x : ℚ => decide (x < g - 60)).countP
            fun x => g - 60 ≤ x) = 0 := by
          rw [List.countP_eq_zero]
          intro a ha
          have := List.mem_takeWhile_imp ha
          simp at this ⊢
          linarith
        rw [hz]
        simpa [prune] using
          List.countP_le_length (l := q.dropWhile fun x : ℚ => decide (x < g - 60))
            (p := fun x => decide (g - 60 ≤ x))
      have hcount : ((q ++ [] ++ [g]).countP fun x => g - 60 ≤ x) =
          (q.countP fun x => g - 60 ≤ x) + 1 := by
        have hg : decide (g - 60 ≤ g) = true := by
          simp only [decide_eq_true_eq]
          linarith
        simp [List.countP_append, List.countP_cons, hg]
      omega
  | cons g0 l1' ih =>
    intro q t g rest gs hrun hgs
    subst hgs
    cases hrun with
    | @cons _ q' _ _ _ htg hstep hrest =>
      have hq' : q' = prune q g0 ++ [g0] := by
        by_cases hl : (prune q g0).length < R
        · simp only [acquireStep] at hstep
          rw [if_pos hl] at hstep
          exact (Option.some.inj hstep).symm
        · simp only [acquireStep] at hstep
          rw [if_neg hl] at hstep
          exact Option.noConfusion hstep
      subst hq'
      have hg0g : g0 ≤ g := run_le R hrest g (by simp)
      have hih := ih _ g0 g rest _ hrest rfl
      have hcq : (q.countP fun x => g - 60 ≤ x) =
          ((prune q g0).countP fun x => g - 60 ≤ x) := by
        conv_lhs => rw [← List.takeWhile_append_dropWhile
          (p := fun x : ℚ => decide (x < g0 - 60)) (l := q)]
        rw [List.countP_append]
        have hz : ((q.takeWhile fun x : ℚ => decide (x < g0 - 60)).countP
            fun x => g - 60 ≤ x) = 0 := by
          rw [List.countP_eq_zero]
          intro a ha
          have := List.mem_takeWhile_imp ha
          simp at this ⊢
          linarith
        rw [hz]
        simp [prune]
      have hsplit1 : ((q ++ (g0 :: l1') ++ [g]).countP fun x => g - 60 ≤ x) =
          (q.countP fun x => g - 60 ≤ x) +
            ((g0 :: l1' ++ [g]).countP fun x => g - 60 ≤ x) := by
        have h1 : q ++ (g0 :: l1') ++ [g] = q ++ (g0 :: (l1' ++ [g])) := by simp
        rw [h1, List.countP_append, List.cons_append]
      have hsplit2 : (((prune q g0 ++ [g0]) ++ l1' ++ [g]).countP
            fun x => g - 60 ≤ x) =
          ((prune q g0).countP fun x => g - 60 ≤ x) +
            ((g0 :: l1' ++ [g]).countP fun x => g - 60 ≤ x) := by
        have h1 : (prune q g0 ++ [g0]) ++ l1' ++ [g] =
            prune q g0 ++ (g0 :: (l1' ++ [g])) := by simp
        rw [h1, List.countP_append, List.cons_append]
      omega

/-- C2: over any window starting at a successful acquire at most `R` acquires
return (any two grants at most 60 seconds apart have at most `R - 2` grants
between them), and after `R` acquires that all returned at the same instant
`g`, the next acquire returns strictly later than `g + 60`. -/
theorem c2_rate_limit :
    (∀ (R : Nat) (t : ℚ) (gs l1 : List ℚ) (g1 : ℚ) (mid : List ℚ) (g2 : ℚ)
        (rest : List ℚ),
      Run R [] t gs → gs = l1 ++ g1 :: mid ++ g2 :: rest → g2 ≤ g1 + 60 →
      mid.length + 2 ≤ R) ∧
    (∀ (R : Nat) (t g g' : ℚ),
      Run R [] t (List.replicate R g ++ [g']) → g + 60 < g') := by
  constructor
  · intro R t gs l1 g1 mid g2 rest hrun hgs hwin
    have hw := run_window_count R (l1 ++ g1 :: mid) [] t g2 rest gs hrun (by simp [hgs])
    have heq : ([] ++ (l1 ++ g1 :: mid) ++ [g2]) = l1 ++ (g1 :: (mid ++ [g2])) := by
      simp
    rw [heq, List.countP_append] at hw
    have hsorted := run_sorted R hrun
    rw [hgs] at hsorted
    have hg1mid : ∀ x ∈ mid, g1 ≤ x := by
      have h1 := (List.pairwise_append.mp (List.pairwise_append.mp hsorted).1).2.1
      have h2 := (List.pairwise_cons.mp h1).1
      intro x hx
      exact h2 x hx
    have hfull : ((g1 :: (mid ++ [g2])).countP fun x => g2 - 60 ≤ x) =
        mid.length + 2 := by
      have hall : ∀ x ∈ g1 :: (mid ++ [g2]), decide (g2 - 60 ≤ x) = true := by
        intro x hx
        rcases List.mem_cons.mp hx with h1 | h2
        · subst h1; simp only [decide_eq_true_eq]; linarith
        · rcases List.mem_append.mp h2 with h3 | h4
          · have := hg1mid x h3; simp only [decide_eq_true_eq]; linarith
          · simp at h4; subst h4; simp only [decide_eq_true_eq]; linarith
      have hlen := (List.countP_eq_length
        (p := fun x : ℚ => decide (g2 - 60 ≤ x))
        (l := g1 :: (mid ++ [g2]))).mpr hall
      rw [hlen]
      simp
    omega
  · intro R t g g' hrun
    by_contra hle
    push_neg at hle
    have hw := run_window_count R (List.replicate R g) [] t g' [] _ hrun rfl
    have heq : ([] ++ List.replicate R g ++ [g']) = List.replicate R g ++ [g'] := by
      simp
    rw [heq] at hw
    have hall : ∀ x ∈ List.replicate R g ++ [g'], decide (g' - 60 ≤ x) = true := by
      intro x hx
      rcases List.mem_append.mp hx with h1 | h2
      · have := List.eq_of_mem_replicate h1; subst this
        simp only [decide_eq_true_eq]; linarith
      · simp at h2; subst h2; simp only [decide_eq_true_eq]; linarith
    have hlen := (List.countP_eq_length
      (p := fun x : ℚ => decide (g' - 60 ≤ x))
      (l := List.replicate R g ++ [g'])).mpr hall
    rw [hlen] at hw
    simp only [List.length_append, List.length_replicate, List.length_cons,
      List.length_nil] at hw
    omega

/-- Witness for `c2_rate_limit`: a concrete two-grant run of a budget-2
limiter within one window, and a concrete run of a budget-1 limiter whose
second grant indeed lands after the first plus 60 seconds. -/
theorem c2_rate_limit_witness :
    (([] : List ℚ).length + 2 ≤ 2) ∧ ((0 : ℚ) + 60 < 61) := by
  constructor
  · refine c2_rate_limit.1 2 0 [0, 50] [] 0 [] 50 [] ?_ rfl (by norm_num)
    exact @Run.cons 2 [] [0] 0 0 [50] (le_refl 0)
      (by norm_num [acquireStep, prune])
      (@Run.cons 2 [0] [0, 50] 0 50 [] (by norm_num)
        (by norm_num [acquireStep, prune, List.dropWhile])
        (Run.nil [0, 50] 50))
  · refine c2_rate_limit.2 1 0 0 61 ?_
    have h1 : List.replicate 1 (0 : ℚ) ++ [61] = [0, 61] := rfl
    rw [h1]
    exact @Run.cons 1 [] [0] 0 0 [61] (le_refl 0)
      (by norm_num [acquireStep, prune])
      (@Run.cons 1 [0] [61] 0 61 [] (by norm_num)
        (by norm_num [acquireStep, prune, List.dropWhile])
        (Run.nil [61] 61))

/-! ## C3: cache canonicalisation -/

theorem Json.beq_refl (j : Json) : Json.beq j j = true := by
  generalize hs : sizeOf j = n
  induction n using Nat.strong_induction_on generalizing j with
  | _ n ih =>
    subst hs
    cases j with
    | null => rw [Json.beq]
    | bool b => rw [Json.beq]; simp
    | num q => rw [Json.beq]; simp
    | str s => rw [Json.beq]; simp
    | arr a =>
      rw [Json.beq]
      simp only [beq_self_eq_true, Bool.true_and, List.all_eq_true, List.mem_attach,
        true_implies, Subtype.forall]
      intro p hp
      rw [zipSelf] at hp
      obtain ⟨x, hx, hpx⟩ := List.mem_map.mp hp
      subst hpx
      have hlt := List.sizeOf_lt_of_mem hx
      have hsz : sizeOf x < sizeOf (Json.arr a) := by simp; omega
      exact ih _ hsz x rfl
    | obj a =>
      rw [Json.beq]
      simp only [beq_self_eq_true, Bool.true_and, List.all_eq_true, List.mem_attach,
        true_implies, Subtype.forall]
      intro p hp
      rw [zipSelf] at hp
      obtain ⟨x, hx, hpx⟩ := List.mem_map.mp hp
      subst hpx
      have hlt := List.sizeOf_lt_of_mem hx
      obtain ⟨k, v⟩ := x
      have hsz : sizeOf v < sizeOf (Json.obj a) := by simp at hlt ⊢; omega
      simp only [beq_self_eq_true, Bool.true_and]
      exact ih _ hsz v rfl

theorem keyEq_refl (k : Json × List String) : keyEq k k = true := by
  simp [keyEq, Json.beq_refl]

/-- C3: two requests with the same canonical form (key-sorted structured
data, with absent data read as the empty object, and lexicographically
sorted notes) map to one cache key, so a `get` after a `set` through the
other request hits, as long as the cache is enabled and the TTL has not
elapsed. -/
theorem c3_cache_canonical_hit :
    ∀ (c : CacheState) (sd1 sd2 : Option Json) (n1 n2 : List String)
      (v : AnalyzeResponse) (t0 t1 : ℚ),
      (sd1.getD (.obj [])).canon = (sd2.getD (.obj [])).canon →
      sortLe (fun a b => charsLe a.data b.data) n1 =
        sortLe (fun a b => charsLe a.data b.data) n2 →
      c.enabled = true → t1 - t0 < c.ttl →
      (c.set sd2 n2 v t0).get sd1 n1 t1 = some v := by
  intro c sd1 sd2 n1 n2 v t0 t1 hcanon hnotes hen httl
  have hkey : generate_key sd1 n1 = generate_key sd2 n2 := by
    unfold generate_key
    rw [hcanon, hnotes]
  rw [CacheState.set, if_pos hen]
  rw [CacheState.get]
  rw [if_pos hen]
  have htake : ((generate_key sd2 n2, v, t0) ::
        c.entries.filter fun e => !keyEq e.1 (generate_key sd2 n2)).take 1000 =
      (generate_key sd2 n2, v, t0) ::
        (c.entries.filter fun e => !keyEq e.1 (generate_key sd2 n2)).take 999 := rfl
  rw [htake]
  rw [List.find?_cons_of_pos]
  · show (if t1 - t0 < c.ttl then some v else none) = some v
    rw [if_pos httl]
  · show keyEq (generate_key sd2 n2) (generate_key sd1 n1) = true
    rw [hkey]
    exact keyEq_refl _

/-- Witness for `c3_cache_canonical_hit`: an empty enabled cache, the same
structured data on both sides, and the notes in two different orders. -/
theorem c3_cache_canonical_hit_witness :
    (CacheState.set ⟨true, 3600, []⟩ none ["x", "y"] respW 0).get
      none ["y", "x"] 1 = some respW :=
  c3_cache_canonical_hit ⟨true, 3600, []⟩ none none ["y", "x"] ["x", "y"] respW 0 1
    rfl (by decide) rfl (by norm_num)

/-! ## C4: dispatcher retry and failure isolation -/

/-- C5 counterexample: the validator keeps `" hello "` exactly as sent — the
kept notes are not trimmed, so a note reaching the core need not be a trimmed
string (the claim would require the normalised list `["hello"]`). -/
theorem c5_counterexample :
    validate_notes (.inr [" hello "]) = [" hello "] ∧
    validate_notes (.inr [" hello "]) ≠ ["hello"] := by
  constructor
  · decide
  · decide

/-- C5 (amended): normalisation drops exactly the entries that are empty or
whitespace-only and keeps the remaining strings unchanged (untrimmed), so
every note reaching the core is one of the submitted strings and is non-empty
after trimming; a bare string becomes a singleton or is dropped the same way;
and an empty normalised list makes the `/analyze` handler answer 400 with a
detail mentioning the note requirement. -/
theorem c5_normalisation :
    (∀ l : List String,
      validate_notes (.inr l) = l.filter (fun s => !(pyStrip s = "")) ∧
      (∀ s ∈ validate_notes (.inr l), pyStrip s ≠ "" ∧ s ∈ l)) ∧
    (∀ s : String,
      validate_notes (.inl s) = if pyStrip s = "" then [] else [s]) ∧
    analyze_notes_check [] = .error (400, "At least one note is required") ∧
    List.IsInfix "note".data "At least one note is required".data := by
  have hfilter : ∀ l : List String,
      validate_notes (.inr l) = l.filter fun s => !(pyStrip s = "") := by
    intro l
    show l.filter _ = l.filter _
    apply List.filter_congr
    intro s _
    by_cases hs : s = ""
    · subst hs
      decide
    · simp [hs]
  refine ⟨fun l => ⟨hfilter l, ?_⟩, fun s => rfl, rfl, by decide⟩
  intro s hs
  rw [hfilter l] at hs
  have h1 := List.mem_filter.mp hs
  refine ⟨?_, h1.1⟩
  have h2 := h1.2
  simp at h2
  exact h2

/-- Witness for `c5_normalisation` at a concrete notes list: the kept note is
one of the submitted strings and is non-empty after stripping. -/
theorem c5_normalisation_witness :
    pyStrip " a " ≠ "" ∧ " a " ∈ ([" a ", "  "] : List String) :=
  (c5_normalisation.1 [" a ", "  "]).2 " a " (by decide)

/-! ## C9: JSON extraction from markdown -/

theorem startsWith_append (p r : List Char) : startsWith p (p ++ r) = true := by
  induction p with
  | nil => rfl
  | cons c cs ih => simp [startsWith, ih]

theorem dropWhile_ws_append (ws l : List Char)
    (hws : ∀ c ∈ ws, isPyWs c = true) :
    (ws ++ l).dropWhile isPyWs = l.dropWhile isPyWs := by
  induction ws with
  | nil => rfl
  | cons c cs ih =>
    have hc := hws c (by simp)
    rw [List.cons_append, List.dropWhile_cons, if_pos hc]
    exact ih fun d hd => hws d (by simp [hd])

theorem dropWhile_nonws_head (c : Char) (l : List Char) (hc : isPyWs c = false) :
    (c :: l).dropWhile isPyWs = c :: l := by
  rw [List.dropWhile_cons, if_neg (by simp [hc])]

theorem isPyWs_tick : isPyWs tickChar = false := by decide

theorem isPyWs_lbrace : isPyWs lbrace = false := by decide

theorem isPyWs_rbrace : isPyWs rbrace = false := by decide

theorem wsThenFence_true (ws r : List Char) (hws : ∀ c ∈ ws, isPyWs c = true) :
    wsThenFence (ws ++ (fenceChars ++ r)) = true := by
  unfold wsThenFence
  rw [dropWhile_ws_append ws _ hws]
  rw [show fenceChars ++ r = tickChar :: ([tickChar, tickChar] ++ r) from rfl]
  rw [dropWhile_nonws_head _ _ isPyWs_tick]
  exact startsWith_append fenceChars r

theorem wsThenFence_false (l r : List Char) (hnotick : ∀ c ∈ l, c ≠ tickChar)
    (hnonws : ∃ c ∈ l, isPyWs c = false) :
    wsThenFence (l ++ r) = false := by
  induction l with
  | nil =>
    obtain ⟨c, hc, _⟩ := hnonws
    cases hc
  | cons c cs ih =>
    unfold wsThenFence at ih ⊢
    rw [List.cons_append, List.dropWhile_cons]
    by_cases hc : isPyWs c = true
    · rw [if_pos hc]
      refine ih (fun d hd => hnotick d (by simp [hd])) ?_
      obtain ⟨d, hd, hdw⟩ := hnonws
      rcases List.mem_cons.mp hd with h1 | h2
      · subst h1; rw [hc] at hdw; cases hdw
      · exact ⟨d, h2, hdw⟩
    · rw [if_neg hc]
      have hne : (tickChar == c) = false := by
        refine beq_eq_false_iff_ne.mpr fun h => ?_
        exact hnotick c (by simp) h.symm
      show startsWith [tickChar, tickChar, tickChar] (c :: (cs ++ r)) = false
      simp [startsWith, hne]

theorem lazyCapture_cons (acc : List Char) (c : Char) (rest : List Char) :
    lazyCapture acc (c :: rest) =
      if c == rbrace && wsThenFence rest then some (acc ++ [c])
      else lazyCapture (acc ++ [c]) rest := rfl

theorem lazyCapture_spec :
    ∀ (mid2 acc ws2 post : List Char),
      (∀ c ∈ mid2, c ≠ tickChar) → (∀ c ∈ ws2, isPyWs c = true) →
      lazyCapture acc (mid2 ++ rbrace :: (ws2 ++ (fenceChars ++ post))) =
        some (acc ++ mid2 ++ [rbrace]) := by
  intro mid2
  induction mid2 with
  | nil =>
    intro acc ws2 post _ hws
    rw [List.nil_append, lazyCapture_cons]
    rw [show (rbrace == rbrace) = true from by simp]
    rw [wsThenFence_true ws2 post hws]
    simp
  | cons c cs ih =>
    intro acc ws2 post hnotick hws
    rw [List.cons_append, lazyCapture_cons]
    have hcond : (c == rbrace && wsThenFence (cs ++ rbrace :: (ws2 ++ (fenceChars ++ post)))) = false := by
      by_cases hcr : (c == rbrace) = true
      · rw [hcr, Bool.true_and]
        have hsh : cs ++ rbrace :: (ws2 ++ (fenceChars ++ post)) =
            (cs ++ [rbrace]) ++ (ws2 ++ (fenceChars ++ post)) := by simp
        rw [hsh]
        refine wsThenFence_false _ _ ?_ ?_
        · intro d hd
          rcases List.mem_append.mp hd with h1 | h2
          · exact hnotick d (by simp [h1])
          · simp at h2; subst h2; decide
        · exact ⟨rbrace, by simp, isPyWs_rbrace⟩
      · simp at hcr
        simp [hcr]
    rw [hcond]
    simp only [Bool.false_eq_true, if_false]
    rw [ih (acc ++ [c]) ws2 post (fun d hd => hnotick d (by simp [hd])) hws]
    simp

theorem fenceBody_spec (ws1 mid2 ws2 post : List Char)
    (hws1 : ∀ c ∈ ws1, isPyWs c = true) (hws2 : ∀ c ∈ ws2, isPyWs c = true)
    (hmid : ∀ c ∈ mid2, c ≠ tickChar) :
    fenceBody (ws1 ++ lbrace :: (mid2 ++ rbrace :: (ws2 ++ (fenceChars ++ post)))) =
      some (lbrace :: mid2 ++ [rbrace]) := by
  unfold fenceBody
  rw [dropWhile_ws_append ws1 _ hws1]
  rw [dropWhile_nonws_head _ _ isPyWs_lbrace]
  show (if (lbrace == lbrace) = true then
      lazyCapture [lbrace] (mid2 ++ rbrace :: (ws2 ++ (fenceChars ++ post)))
    else none) = some (lbrace :: mid2 ++ [rbrace])
  rw [show (lbrace == lbrace) = true from by simp]
  simp only [if_true]
  rw [lazyCapture_spec mid2 [lbrace] ws2 post hmid hws2]
  simp

theorem matchFenceAt_spec (tagJson : Bool) (ws1 mid2 ws2 post : List Char)
    (hws1 : ∀ c ∈ ws1, isPyWs c = true) (hws2 : ∀ c ∈ ws2, isPyWs c = true)
    (hmid : ∀ c ∈ mid2, c ≠ tickChar) :
    matchFenceAt (fenceChars ++ ((if tagJson then "json".toList else []) ++
        (ws1 ++ lbrace :: (mid2 ++ rbrace :: (ws2 ++ (fenceChars ++ post)))))) =
      some (lbrace :: mid2 ++ [rbrace]) := by
  unfold matchFenceAt
  rw [startsWith_append]
  simp only [if_true]
  have hdrop3 : (fenceChars ++ ((if tagJson then "json".toList else []) ++
      (ws1 ++ lbrace :: (mid2 ++ rbrace :: (ws2 ++ (fenceChars ++ post)))))).drop 3 =
      (if tagJson then "json".toList else []) ++
        (ws1 ++ lbrace :: (mid2 ++ rbrace :: (ws2 ++ (fenceChars ++ post)))) := rfl
  rw [hdrop3]
  cases tagJson with
  | true =>
    simp only [if_true]
    rw [startsWith_append]
    simp only [if_true]
    have hdrop4 : ("json".toList ++
        (ws1 ++ lbrace :: (mid2 ++ rbrace :: (ws2 ++ (fenceChars ++ post))))).drop 4 =
        ws1 ++ lbrace :: (mid2 ++ rbrace :: (ws2 ++ (fenceChars ++ post))) := rfl
    rw [hdrop4]
    rw [fenceBody_spec ws1 mid2 ws2 post hws1 hws2 hmid]
  | false =>
    simp only [Bool.false_eq_true, if_false, List.nil_append]
    have hjson : startsWith "json".toList
        (ws1 ++ lbrace :: (mid2 ++ rbrace :: (ws2 ++ (fenceChars ++ post)))) = false := by
      cases ws1 with
      | nil =>
        rw [List.nil_append]
        show startsWith ('j' :: "son".toList) (lbrace :: _) = false
        have : ('j' == lbrace) = false := by decide
        simp [startsWith, this]
      | cons c cs =>
        rw [List.cons_append]
        show startsWith ('j' :: "son".toList) (c :: _) = false
        have hcw := hws1 c (by simp)
        have : ('j' == c) = false := by
          refine beq_eq_false_iff_ne.mpr fun h => ?_
          rw [← h] at hcw
          exact absurd hcw (by decide)
        simp [startsWith, this]
    rw [hjson]
    simp only [Bool.false_eq_true, if_false]
    rw [fenceBody_spec ws1 mid2 ws2 post hws1 hws2 hmid]

theorem findFenced_cons (c : Char) (rest : List Char) :
    findFenced (c :: rest) =
      match matchFenceAt (c :: rest) with
      | some cap => some cap
      | none => findFenced rest := rfl

theorem matchFenceAt_none_of_head (c : Char) (l : List Char)
    (hc : c ≠ tickChar) : matchFenceAt (c :: l) = none := by
  unfold matchFenceAt
  have hne : (tickChar == c) = false :=
    beq_eq_false_iff_ne.mpr fun h => hc h.symm
  have hsw : startsWith fenceChars (c :: l) = false := by
    show startsWith [tickChar, tickChar, tickChar] (c :: l) = false
    simp [startsWith, hne]
  rw [hsw]
  simp

theorem findFenced_append_no_tick (pre : List Char) (s : List Char)
    (hpre : ∀ c ∈ pre, c ≠ tickChar) :
    findFenced (pre ++ s) = findFenced s := by
  induction pre with
  | nil => rfl
  | cons c cs ih =>
    rw [List.cons_append, findFenced_cons,
      matchFenceAt_none_of_head c _ (hpre c (by simp))]
    exact ih fun d hd => hpre d (by simp [hd])

theorem extract_unfold (s : List Char) :
    extract_json_from_markdown s =
      match findFenced s with
      | some cap => some cap
      | none => bracesFallback s := rfl

theorem dropWhile_append_all (p : α → Bool) (l1 l2 : List α)
    (h : ∀ c ∈ l1, p c = true) : (l1 ++ l2).dropWhile p = l2.dropWhile p := by
  induction l1 with
  | nil => rfl
  | cons c cs ih =>
    rw [List.cons_append, List.dropWhile_cons, if_pos (h c (by simp))]
    exact ih fun d hd => h d (by simp [hd])

theorem bracesFallback_spec (pre mid post : List Char)
    (hpre : ∀ c ∈ pre, c ≠ lbrace) (hpost : ∀ c ∈ post, c ≠ rbrace) :
    bracesFallback (pre ++ lbrace :: (mid ++ rbrace :: post)) =
      some (lbrace :: (mid ++ [rbrace])) := by
  simp only [bracesFallback]
  have h1 : (pre ++ lbrace :: (mid ++ rbrace :: post)).dropWhile
      (fun c => !(c == lbrace)) = lbrace :: (mid ++ rbrace :: post) := by
    rw [dropWhile_append_all _ pre _ ?_]
    · rw [List.dropWhile_cons, if_neg (by simp)]
    · intro c hc
      simp [beq_eq_false_iff_ne.mpr (hpre c hc)]
  rw [h1]
  have h2 : (lbrace :: (mid ++ rbrace :: post)).reverse =
      post.reverse ++ rbrace :: (mid.reverse ++ [lbrace]) := by
    simp
  rw [h2]
  have h3 : (post.reverse ++ rbrace :: (mid.reverse ++ [lbrace])).dropWhile
      (fun c => !(c == rbrace)) = rbrace :: (mid.reverse ++ [lbrace]) := by
    rw [dropWhile_append_all _ post.reverse _ ?_]
    · rw [List.dropWhile_cons, if_neg (by simp)]
    · intro c hc
      simp [beq_eq_false_iff_ne.mpr (hpost c (List.mem_reverse.mp hc))]
  rw [h3]
  have h4 : (rbrace :: (mid.reverse ++ [lbrace])).reverse =
      lbrace :: (mid ++ [rbrace]) := by
    simp
  rw [h4]
  rw [if_pos (by simp)]

theorem fenceBody_none_no_lbrace (r : List Char) (h : ∀ c ∈ r, c ≠ lbrace) :
    fenceBody r = none := by
  unfold fenceBody
  cases hdw : r.dropWhile isPyWs with
  | nil => rfl
  | cons c rest =>
    have hcm : c ∈ r := by
      refine (List.dropWhile_sublist isPyWs).subset ?_
      rw [hdw]
      simp
    have hcf : (c == lbrace) = false := beq_eq_false_iff_ne.mpr (h c hcm)
    show (if (c == lbrace) = true then lazyCapture [c] rest else none) = none
    rw [hcf]
    simp

theorem matchFenceAt_none_no_lbrace (s : List Char) (h : ∀ c ∈ s, c ≠ lbrace) :
    matchFenceAt s = none := by
  unfold matchFenceAt
  have hd3 : ∀ c ∈ s.drop 3, c ≠ lbrace := fun c hc => h c (List.drop_subset _ _ hc)
  have hb1 := fenceBody_none_no_lbrace (s.drop 3) hd3
  have hb2 := fenceBody_none_no_lbrace ((s.drop 3).drop 4)
    fun c hc => hd3 c (List.drop_subset _ _ hc)
  by_cases hsw : startsWith fenceChars s = true
  · rw [hsw]
    simp only [if_true]
    by_cases hj : startsWith "json".toList (s.drop 3) = true
    · rw [hj]
      simp only [if_true]
      rw [hb2, hb1]
    · simp only [Bool.not_eq_true] at hj
      rw [hj]
      simp only [Bool.false_eq_true, if_false]
      rw [hb1]
  · simp only [Bool.not_eq_true] at hsw
    rw [hsw]
    simp

theorem findFenced_none_no_lbrace (s : List Char) (h : ∀ c ∈ s, c ≠ lbrace) :
    findFenced s = none := by
  induction s with
  | nil => rfl
  | cons c rest ih =>
    rw [findFenced_cons, matchFenceAt_none_no_lbrace _ h]
    exact ih fun d hd => h d (by simp [hd])

theorem bracesFallback_none_no_lbrace (s : List Char) (h : ∀ c ∈ s, c ≠ lbrace) :
    bracesFallback s = none := by
  simp only [bracesFallback]
  have h1 : s.dropWhile (fun c => !(c == lbrace)) = [] := by
    rw [List.dropWhile_eq_nil_iff]
    intro c hc
    simp [beq_eq_false_iff_ne.mpr (h c hc)]
  rw [h1]
  rfl

/-- C9 counterexample: for a response with no fence and two top-level
objects, the greedy fallback `\x7b.*\x7d` extracts from the first opening
brace through the LAST closing brace — `\x7b"x": 1\x7d b \x7b"y": 2\x7d` — not
the first balanced substring `\x7b"x": 1\x7d` that the claim requires. -/
theorem c9_counterexample :
    extract_json_from_markdown ("a \x7b\"x\": 1\x7d b \x7b\"y\": 2\x7d".toList) =
      some ("\x7b\"x\": 1\x7d b \x7b\"y\": 2\x7d".toList) ∧
    ("\x7b\"x\": 1\x7d b \x7b\"y\": 2\x7d".toList : List Char) ≠
      "\x7b\"x\": 1\x7d".toList := by
  constructor
  · decide
  · decide

/-- C9 (amended): the recovery path extracts the body of the first fenced
code block (fence, optional `json` tag, whitespace, a braced body with no
backtick, whitespace, fence) — for a fenced JSON object with nested braces
that is the whole object; otherwise it extracts the substring from the FIRST
opening brace through the LAST closing brace of the text (for a text whose
braces form one balanced object, that object); and when the text contains no
opening brace at all, extraction fails and the invocation fails with the
analysis error. -/
theorem c9_json_recovery :
    (∀ (pre ws1 mid2 ws2 post : List Char) (tagJson : Bool),
      (∀ c ∈ pre, c ≠ tickChar) →
      (∀ c ∈ ws1, isPyWs c = true) → (∀ c ∈ ws2, isPyWs c = true) →
      (∀ c ∈ mid2, c ≠ tickChar) →
      extract_json_from_markdown
          (pre ++ fenceChars ++ (if tagJson then "json".toList else []) ++ ws1 ++
            (lbrace :: mid2 ++ [rbrace]) ++ ws2 ++ fenceChars ++ post) =
        some (lbrace :: mid2 ++ [rbrace])) ∧
    (∀ (pre mid post : List Char),
      findFenced (pre ++ lbrace :: (mid ++ rbrace :: post)) = none →
      (∀ c ∈ pre, c ≠ lbrace) → (∀ c ∈ post, c ≠ rbrace) →
      extract_json_from_markdown (pre ++ lbrace :: (mid ++ rbrace :: post)) =
        some (lbrace :: (mid ++ [rbrace]))) ∧
    (∀ s : List Char, (∀ c ∈ s, c ≠ lbrace) →
      extract_json_from_markdown s = none ∧
      recover_non_json s =
        .error "Failed to analyze data: Could not extract JSON from response") := by
  refine ⟨?_, ?_, ?_⟩
  · intro pre ws1 mid2 ws2 post tagJson hpre hws1 hws2 hmid
    have hshape : pre ++ fenceChars ++ (if tagJson then "json".toList else []) ++
        ws1 ++ (lbrace :: mid2 ++ [rbrace]) ++ ws2 ++ fenceChars ++ post =
        pre ++ (fenceChars ++ ((if tagJson then "json".toList else []) ++
          (ws1 ++ lbrace :: (mid2 ++ rbrace :: (ws2 ++ (fenceChars ++ post)))))) := by
      simp
    rw [hshape, extract_unfold]
    rw [findFenced_append_no_tick pre _ hpre]
    have hm := matchFenceAt_spec tagJson ws1 mid2 ws2 post hws1 hws2 hmid
    have hff : findFenced (fenceChars ++ ((if tagJson then "json".toList else []) ++
        (ws1 ++ lbrace :: (mid2 ++ rbrace :: (ws2 ++ (fenceChars ++ post)))))) =
        some (lbrace :: mid2 ++ [rbrace]) := by
      rw [show (fenceChars ++ ((if tagJson then "json".toList else []) ++
          (ws1 ++ lbrace :: (mid2 ++ rbrace :: (ws2 ++ (fenceChars ++ post)))))) =
        tickChar :: ([tickChar, tickChar] ++ ((if tagJson then "json".toList else []) ++
          (ws1 ++ lbrace :: (mid2 ++ rbrace :: (ws2 ++ (fenceChars ++ post))))))
        from rfl] at hm ⊢
      rw [findFenced_cons, hm]
    rw [hff]
  · intro pre mid post hfen hpre hpost
    rw [extract_unfold, hfen]
    exact bracesFallback_spec pre mid post hpre hpost
  · intro s h
    have hf := findFenced_none_no_lbrace s h
    have hb := bracesFallback_none_no_lbrace s h
    have he : extract_json_from_markdown s = none := by
      rw [extract_unfold, hf]
      exact hb
    refine ⟨he, ?_⟩
    unfold recover_non_json
    rw [he]

/-- Witness for `c9_json_recovery`: a fenced nested object after plain text,
an unfenced single object, and a brace-free text. -/
theorem c9_json_recovery_witness :
    (extract_json_from_markdown
        ("Sure! ".toList ++ fenceChars ++ "json".toList ++ ['\n'] ++
          (lbrace :: "\"a\": \x7b\"b\": 1\x7d".toList ++ [rbrace]) ++ ['\n'] ++
          fenceChars ++ " bye".toList) =
      some (lbrace :: "\"a\": \x7b\"b\": 1\x7d".toList ++ [rbrace])) ∧
    (extract_json_from_markdown
        ("x ".toList ++ lbrace :: ("\"k\": 1".toList ++ rbrace :: " y".toList)) =
      some (lbrace :: ("\"k\": 1".toList ++ [rbrace]))) ∧
    (extract_json_from_markdown "no json here".toList = none ∧
      recover_non_json "no json here".toList =
        .error "Failed to analyze data: Could not extract JSON from response") := by
  refine ⟨?_, ?_, ?_⟩
  · have h := c9_json_recovery.1 "Sure! ".toList ['\n'] "\"a\": \x7b\"b\": 1\x7d".toList
      ['\n'] " bye".toList true (by decide) (by decide) (by decide) (by decide)
    simpa using h
  · exact c9_json_recovery.2.1 "x ".toList "\"k\": 1".toList " y".toList
      (by decide) (by decide) (by decide)
  · exact c9_json_recovery.2.2 "no json here".toList (by decide)

end SmartSummary
